import Mathlib

/-!
# Verification of the MotionEditor core (motion_editor.cpp / motion_editor.hpp)

A shallow embedding of the MotionEditor component: a YAML motion-sequence
document editor that classifies top-level entries into typed frames and opaque
blobs, supports named joint edits, and re-serializes the document.

Modelling choices:
* YAML nodes (`YAML::Node`) are the inductive `YNode`: null, typed scalars,
  sequences and mappings (a mapping is an ordered association list, as emitted
  by yaml-cpp, with first-key-wins lookup).
* yaml-cpp conversions (`as<int>`, `as<std::string>`, `as<bool>`, `as<double>`)
  are the partial functions `asInt`, `asStr`, `asBool`, `asFloat`; `double` is
  modelled as `Rat` (yaml-cpp emits doubles at full round-trip precision).
* C++ exceptions with in-place mutation of the editor's members are modelled by
  returning the (possibly partially mutated) state together with
  `Option String`: `some msg` is a thrown `std::runtime_error(msg)`, and the
  returned state is the member state at the moment of the throw.
* `MetaBlob.rawYaml` stores `ss << item` (a dump of the node) and re-parses it
  with `YAML::Load` on save; the dump-then-reparse round trip of yaml-cpp is
  modelled as the identity on the node tree, so a blob is stored as its `YNode`.
* `std::unordered_map` iteration order is unspecified in C++; maps that are
  only used for lookup (`joint_to_id_`, `id2dxl`) are association lists with
  last-insertion-wins lookup, and an `updates` argument (`JointPosMap`) is a
  list of pairs standing for one concrete iteration order.
-/

namespace MotionEditorModel

/-- Model of a yaml-cpp `YAML::Node`: null, typed scalars, sequence, mapping.
A mapping keeps its entries in order; duplicate keys resolve to the first. -/
inductive YNode where
  | null
  | scalarInt (i : Int)
  | scalarStr (s : String)
  | scalarBool (b : Bool)
  | scalarFloat (q : Rat)
  | seq (items : List YNode)
  | map (entries : List (String × YNode))

/-- First-match lookup of a key in a mapping's entry list (yaml-cpp `n[key]`). -/
def lookupEntry : List (String × YNode) → String → Option YNode
  | [], _ => none
  | (k, v) :: rest, key => if k = key then some v else lookupEntry rest key

/-- yaml-cpp `n[key]` on an arbitrary node: `none` models an undefined node
(falsy in `if (n[key])` tests); non-mappings yield undefined. -/
def nodeGet : YNode → String → Option YNode
  | .map entries, key => lookupEntry entries key
  | _, _ => none

/-- yaml-cpp `IsMap()`. -/
def YNode.isMap : YNode → Bool
  | .map _ => true
  | _ => false

/-- yaml-cpp `IsSequence()`. -/
def YNode.isSeq : YNode → Bool
  | .seq _ => true
  | _ => false

/-- yaml-cpp `as<int>()`: succeeds only on an integer scalar. -/
def asInt : YNode → Option Int
  | .scalarInt i => some i
  | _ => none

/-- yaml-cpp `as<std::string>()`: succeeds on a string scalar. -/
def asStr : YNode → Option String
  | .scalarStr s => some s
  | _ => none

/-- yaml-cpp `as<bool>()`: succeeds only on a boolean scalar. -/
def asBool : YNode → Option Bool
  | .scalarBool b => some b
  | _ => none

/-- yaml-cpp `as<double>()`: succeeds on a float scalar, and on an integer
scalar (YAML integer text converts to double). -/
def asFloat : YNode → Option Rat
  | .scalarFloat q => some q
  | .scalarInt i => some (i : Rat)
  | _ => none

/-- `static bool hasKey(const YAML::Node& n, const char* key)`:
`n.IsMap() && n[key]`. -/
def hasKey (n : YNode) (key : String) : Bool :=
  n.isMap && (nodeGet n key).isSome

/-- `struct DxlValue { int id; double position; }`. -/
structure DxlValue where
  id : Int
  position : Rat
deriving DecidableEq, Repr

/-- `struct Frame`: time/delay/repeat/name/selected metadata plus the ordered
`dxl` joint sequence. Field `repeat` is named `rept` (Lean keyword). -/
structure Frame where
  time : Int := 0
  delay : Int := 0
  rept : Int := 0
  name : String := ""
  selected : Bool := false
  dxl : List DxlValue := []
deriving DecidableEq, Repr

/-- The editor's member state: `meta_blobs_`, `frames_`, `joint_to_id_`.
Blobs are stored as their node trees (see module comment on `rawYaml`). -/
structure MotionEditorState where
  meta_blobs : List YNode
  frames : List Frame
  joint_to_id : List (String × Int)

/-- The default `joint_to_id_` mapping installed by the default constructor. -/
def defaultJointToId : List (String × Int) :=
  [("rotate_torso", 22), ("rotate_0", 0), ("rotate_1", 1),
   ("rotate_2", 2), ("rotate_3", 3), ("rotate_5", 5)]

/-- `joint_to_id_.find(jname)`: first-match lookup in the name-to-id mapping. -/
def jointLookup : List (String × Int) → String → Option Int
  | [], _ => none
  | (n, id) :: rest, s => if n = s then some id else jointLookup rest s

/-- An optional integer frame field: absent key yields the default, a present
key is converted with `as<int>` and a failed conversion throws. -/
def fieldInt (n : YNode) (key : String) (dflt : Int) : Except String Int :=
  match nodeGet n key with
  | none => .ok dflt
  | some v =>
    match asInt v with
    | some i => .ok i
    | none => .error "yaml-cpp: bad conversion"

/-- An optional string frame field (`as<std::string>`), as `fieldInt`. -/
def fieldStr (n : YNode) (key : String) (dflt : String) : Except String String :=
  match nodeGet n key with
  | none => .ok dflt
  | some v =>
    match asStr v with
    | some s => .ok s
    | none => .error "yaml-cpp: bad conversion"

/-- An optional boolean frame field (`as<bool>`), as `fieldInt`. -/
def fieldBool (n : YNode) (key : String) (dflt : Bool) : Except String Bool :=
  match nodeGet n key with
  | none => .ok dflt
  | some v =>
    match asBool v with
    | some b => .ok b
    | none => .error "yaml-cpp: bad conversion"

/-- The loop over `n["dxl"]` in `parseFrameFromNode`: a non-mapping element is
skipped (`continue`); a mapping element reads `id` with `as<int>` and
`position` with `as<double>`, throwing when a key is absent (undefined node)
or the conversion fails. -/
def parseDxlSeq : List YNode → Except String (List DxlValue)
  | [] => .ok []
  | elem :: rest =>
    match elem with
    | .map entries =>
      match (lookupEntry entries "id").bind asInt,
            (lookupEntry entries "position").bind asFloat with
      | some i, some p => (parseDxlSeq rest).map (fun l => ⟨i, p⟩ :: l)
      | _, _ => .error "yaml-cpp: bad conversion"
    | _ => parseDxlSeq rest

/-- `Frame MotionEditor::parseFrameFromNode(const YAML::Node& n)`: optional
metadata fields with defaults, then the mandatory `dxl` sequence; a missing or
non-sequence `dxl` throws an error naming the partially-parsed frame. -/
def parseFrameFromNode (n : YNode) : Except String Frame := do
  let time ← fieldInt n "time" 0
  let delay ← fieldInt n "delay" 0
  let rept ← fieldInt n "repeat" 0
  let name ← fieldStr n "name" ""
  let selected ← fieldBool n "selected" false
  match nodeGet n "dxl" with
  | some (.seq items) =>
    let dxl ← parseDxlSeq items
    pure { time := time, delay := delay, rept := rept, name := name,
           selected := selected, dxl := dxl }
  | _ => .error ("MotionEditor: frame missing 'dxl' sequence: " ++ name)

/-- The classification test in `loadFromFile`:
`hasKey(item, "dxl") && hasKey(item, "time") && hasKey(item, "name")`. -/
def appearsFrame (item : YNode) : Bool :=
  hasKey item "dxl" && hasKey item "time" && hasKey item "name"

/-- The loading loop of `loadFromFile`: each item that appears to be a frame is
parsed and pushed onto `frames_`, every other item is pushed onto
`meta_blobs_`; a parse error aborts the loop, keeping what was pushed so far
(the C++ members already hold it when the exception propagates). -/
def loadLoop : List YNode → List YNode → List Frame →
    (List YNode × List Frame) × Option String
  | [], blobs, frames => ((blobs, frames), none)
  | item :: rest, blobs, frames =>
    if appearsFrame item then
      match parseFrameFromNode item with
      | .ok f => loadLoop rest blobs (frames ++ [f])
      | .error e => ((blobs, frames), some e)
    else
      loadLoop rest (blobs ++ [item]) frames

/-- `void MotionEditor::loadFromFile(const std::string& path)`: clears
`meta_blobs_` and `frames_` first, requires the root to be a sequence, then
runs the classification loop. `root` is the result of `YAML::LoadFile`. -/
def loadFromFile (st : MotionEditorState) (root : YNode) :
    MotionEditorState × Option String :=
  match root with
  | .seq items =>
    let r := loadLoop items [] []
    ({ st with meta_blobs := r.1.1, frames := r.1.2 }, r.2)
  | _ =>
    ({ st with meta_blobs := [], frames := [] },
     some "MotionEditor: top-level must be a YAML sequence.")

/-- `int MotionEditor::findFrameIndexByName(const std::string&) const`:
index of the first frame with the given name (`-1`, here `none`, if absent). -/
def findFrameIndexByName : List Frame → String → Option Nat
  | [], _ => none
  | f :: rest, step_name =>
    if f.name = step_name then some 0
    else (findFrameIndexByName rest step_name).map (· + 1)

/-- The `id2dxl` hash map of `editJoints`, as an association list from joint
id to an index into the frame's `dxl` vector; insertion prepends, so lookup
(first match) returns the most recent insertion, as a hash-map overwrite. -/
abbrev Id2Dxl := List (Int × Nat)

/-- `id2dxl[id] = &entry`: hash-map insert-or-overwrite (prepend; the newest
binding shadows older ones for lookup). -/
def id2dxlInsert (m : Id2Dxl) (id : Int) (i : Nat) : Id2Dxl :=
  (id, i) :: m

/-- `id2dxl.find(id)`: the most recently inserted index for `id`, if any. -/
def id2dxlFind : Id2Dxl → Int → Option Nat
  | [], _ => none
  | (id, i) :: rest, key => if id = key then some i else id2dxlFind rest key

/-- `for (auto& dv : f.dxl) id2dxl[dv.id] = &dv;` starting at index `i` with
accumulated map `m`. -/
def buildId2dxlAux : List DxlValue → Nat → Id2Dxl → Id2Dxl
  | [], _, m => m
  | dv :: rest, i, m => buildId2dxlAux rest (i + 1) (id2dxlInsert m dv.id i)

/-- The full `id2dxl` construction over a frame's `dxl` vector. -/
def buildId2dxl (dxl : List DxlValue) : Id2Dxl :=
  buildId2dxlAux dxl 0 []

/-- `it2->second->position = qrad`: overwrite the position of the entry at
index `i`, keeping its id (no-op on an out-of-range index, which the
construction never produces). -/
def setPosAt (dxl : List DxlValue) (i : Nat) (q : Rat) : List DxlValue :=
  match dxl[i]? with
  | some dv => dxl.set i { dv with position := q }
  | none => dxl

/-- The running state of the `editJoints` update loop: the frame's `dxl`
vector and the `id2dxl` index map. -/
structure EditSt where
  dxl : List DxlValue
  idx : Id2Dxl

/-- The update loop of `editJoints` over the `(jname, qrad)` pairs: an
unresolved name throws under `strict` and is skipped otherwise; a resolved id
present in `id2dxl` has its entry's position overwritten, an absent id gets a
new `{id, position}` entry appended (`push_back`) and registered. -/
def editLoop (jm : List (String × Int)) (strict : Bool) :
    List (String × Rat) → EditSt → EditSt × Option String
  | [], s => (s, none)
  | (jname, qrad) :: rest, s =>
    match jointLookup jm jname with
    | none =>
      if strict then (s, some ("Unknown joint name: " ++ jname))
      else editLoop jm strict rest s
    | some id =>
      match id2dxlFind s.idx id with
      | none =>
        editLoop jm strict rest
          ⟨s.dxl ++ [⟨id, qrad⟩], id2dxlInsert s.idx id s.dxl.length⟩
      | some i =>
        editLoop jm strict rest ⟨setPosAt s.dxl i qrad, s.idx⟩

/-- `void MotionEditor::editJoints(step_name, joint_positions_rad, strict)`:
resolve the frame by name (throwing `step not found` when absent, whatever
`strict` is), build `id2dxl`, then run the update loop; the frame is mutated
in place, so a mid-loop throw keeps the updates already applied. -/
def editJoints (st : MotionEditorState) (step_name : String)
    (joint_positions_rad : List (String × Rat)) (strict : Bool) :
    MotionEditorState × Option String :=
  match findFrameIndexByName st.frames step_name with
  | none => (st, some ("MotionEditor: step not found: " ++ step_name))
  | some i =>
    match st.frames[i]? with
    | none => (st, none)
    | some f =>
      let r := editLoop st.joint_to_id strict joint_positions_rad
        ⟨f.dxl, buildId2dxl f.dxl⟩
      ({ st with frames := st.frames.set i { f with dxl := r.1.dxl } }, r.2)

/-- The hardcoded whitelist of `editFourArmJoints` (the `put` calls, in
order). -/
def armWhitelist : List String :=
  ["rotate_torso", "rotate_0", "rotate_1", "rotate_2", "rotate_3", "rotate_5"]

/-- `joint_positions_rad.find(j)` on the updates argument. -/
def updatesLookup : List (String × Rat) → String → Option Rat
  | [], _ => none
  | (n, q) :: rest, s => if n = s then some q else updatesLookup rest s

/-- The `sub` map built by `editFourArmJoints`: the updates restricted to the
whitelist, in whitelist order (one representative iteration order of the C++
`unordered_map`). -/
def buildSub (upd : List (String × Rat)) : List (String × Rat) :=
  armWhitelist.filterMap (fun j => (updatesLookup upd j).map (fun q => (j, q)))

/-- `void MotionEditor::editFourArmJoints(step_name, joint_positions_rad)`:
filter the updates to the whitelist; an empty subset returns quietly before
any frame lookup, otherwise delegate to `editJoints` with `strict = false`. -/
def editFourArmJoints (st : MotionEditorState) (step_name : String)
    (joint_positions_rad : List (String × Rat)) :
    MotionEditorState × Option String :=
  let sub := buildSub joint_positions_rad
  if sub.isEmpty then (st, none)
  else editJoints st step_name sub false

/-- Assignment `node[key] = value` on a yaml-cpp mapping: overwrite an
existing key in place, else append the new entry. -/
def mapSet (es : List (String × YNode)) (key : String) (v : YNode) :
    List (String × YNode) :=
  if (lookupEntry es key).isSome then
    es.map (fun p => if p.1 = key then (key, v) else p)
  else es ++ [(key, v)]

/-- The emission of one `dxl` entry in `buildYamlFromAll`:
`one["id"] = dv.id; one["position"] = dv.position;`. -/
def dxlToNode (dv : DxlValue) : YNode :=
  .map (mapSet (mapSet [] "id" (.scalarInt dv.id))
        "position" (.scalarFloat dv.position))

/-- The emission of one frame in `buildYamlFromAll`: the six assignments in
source order, then the `dxl` sequence built by `push_back`. -/
def frameToNode (f : Frame) : YNode :=
  let es := mapSet [] "time" (.scalarInt f.time)
  let es := mapSet es "delay" (.scalarInt f.delay)
  let es := mapSet es "repeat" (.scalarInt f.rept)
  let es := mapSet es "name" (.scalarStr f.name)
  let es := mapSet es "selected" (.scalarBool f.selected)
  let dxl_node := f.dxl.foldl (fun acc dv => acc ++ [dxlToNode dv]) []
  .map (mapSet es "dxl" (.seq dxl_node))

/-- `YAML::Node MotionEditor::buildYamlFromAll(metas, frames)`: a sequence
receiving every blob (its stored tree re-expanded) then every frame, by
`push_back` in order. -/
def buildYamlFromAll (metas : List YNode) (frames : List Frame) : YNode :=
  let out := metas.foldl (fun acc m => acc ++ [m]) ([] : List YNode)
  .seq (frames.foldl (fun acc f => acc ++ [frameToNode f]) out)

/-- `void MotionEditor::saveToFile(path) const`: the document written out (the
file-system write itself is outside the model). -/
def saveToFile (st : MotionEditorState) : YNode :=
  buildYamlFromAll st.meta_blobs st.frames

/-- `std::vector<std::string> MotionEditor::listStepNames() const`. -/
def listStepNames (st : MotionEditorState) : List String :=
  st.frames.map (·.name)

/-- `std::optional<Frame> MotionEditor::getFrame(step_name) const`. -/
def getFrame (st : MotionEditorState) (step_name : String) : Option Frame :=
  match findFrameIndexByName st.frames step_name with
  | none => none
  | some i => st.frames[i]?

end MotionEditorModel

namespace MotionEditorModel

/-! ## Specification-side definitions and concrete inputs -/

/-- The classification rule exactly as the spec words it: a frame candidate is
a mapping-like structure containing all three keys `dxl` (joints), `time` and
`name` (presence check only). Stated independently of `appearsFrame` so the
two can be compared. -/
def isFrameCandidateSpec (n : YNode) : Prop :=
  ∃ es, n = YNode.map es ∧ (lookupEntry es "dxl").isSome = true ∧
    (lookupEntry es "time").isSome = true ∧ (lookupEntry es "name").isSome = true

/-- The index the `id2dxl` construction associates to a joint id: the LAST
position in the vector holding that id (`id2dxl[dv.id] = &dv` overwrites, so a
later entry replaces an earlier one). Used to characterise `buildId2dxl`. -/
def lastIdxOf : List DxlValue → Int → Option Nat
  | [], _ => none
  | dv :: rest, key =>
    match lastIdxOf rest key with
    | some j => some (j + 1)
    | none => if dv.id = key then some 0 else none

/-- A non-frame mapping (has `time` and `name` but no `dxl`). -/
def wBlobNode : YNode := .map [("time", .scalarInt 1), ("name", .scalarStr "meta")]

/-- A scalar top-level entry. -/
def wScalarNode : YNode := .scalarStr "comment"

/-- A well-formed frame node, with a duplicated joint id. -/
def wFrameNode : YNode :=
  .map [("time", .scalarInt 100), ("name", .scalarStr "f1"),
        ("dxl", .seq [.map [("id", .scalarInt 1), ("position", .scalarFloat 5)],
                      .map [("id", .scalarInt 1), ("position", .scalarFloat 3)]])]

/-- A frame candidate whose `dxl` is a scalar: parsing it fails fatally. -/
def wBadFrameNode : YNode :=
  .map [("time", .scalarInt 2), ("name", .scalarStr "bad"), ("dxl", .scalarInt 7)]

/-- A freshly constructed editor (default joint mapping, empty document). -/
def wState : MotionEditorState := ⟨[], [], defaultJointToId⟩

/-- The editor state after loading `[wBlobNode, wScalarNode, wFrameNode]`. -/
def wLoadedState : MotionEditorState :=
  (loadFromFile wState (.seq [wBlobNode, wScalarNode, wFrameNode])).1

/-- A frame `f1` whose `dxl` vector has a duplicated id 1, written out
directly. -/
def wFrame : Frame := { time := 100, name := "f1", dxl := [⟨1, 5⟩, ⟨1, 3⟩] }

/-- An editor holding only `wFrame`. -/
def wEditState : MotionEditorState := ⟨[], [wFrame], defaultJointToId⟩

end MotionEditorModel

namespace MotionEditorModel

/-! ## Helper lemmas -/

theorem foldl_push {α β : Type} (g : α → β) (l : List α) (acc : List β) :
    l.foldl (fun a x => a ++ [g x]) acc = acc ++ l.map g := by
  induction l generalizing acc with
  | nil => simp
  | cons x xs ih => simp [List.foldl_cons, ih]

theorem foldl_push_id {α : Type} (l acc : List α) :
    l.foldl (fun a x => a ++ [x]) acc = acc ++ l := by
  induction l generalizing acc with
  | nil => simp
  | cons x xs ih => simp [List.foldl_cons, ih]

theorem buildYamlFromAll_eq (metas : List YNode) (frames : List Frame) :
    buildYamlFromAll metas frames = .seq (metas ++ frames.map frameToNode) := by
  simp only [buildYamlFromAll, foldl_push_id, foldl_push, List.nil_append]

theorem dxlToNode_eq (dv : DxlValue) :
    dxlToNode dv =
      .map [("id", .scalarInt dv.id), ("position", .scalarFloat dv.position)] := by
  rfl

theorem frameToNode_eq (f : Frame) :
    frameToNode f = .map
      [("time", .scalarInt f.time), ("delay", .scalarInt f.delay),
       ("repeat", .scalarInt f.rept), ("name", .scalarStr f.name),
       ("selected", .scalarBool f.selected),
       ("dxl", .seq (f.dxl.map dxlToNode))] := by
  simp only [frameToNode, foldl_push]
  rfl

theorem parseDxlSeq_map (l : List DxlValue) :
    parseDxlSeq (l.map dxlToNode) = .ok l := by
  induction l with
  | nil => rfl
  | cons dv rest ih =>
    simp [parseDxlSeq, dxlToNode_eq, lookupEntry, asInt, asFloat, ih, Except.map]

theorem ok_bind {α β : Type} (a : α) (g : α → Except String β) :
    ((Except.ok a : Except String α) >>= g) = g a := rfl

theorem parseFrameFromNode_frameToNode (f : Frame) :
    parseFrameFromNode (frameToNode f) = .ok f := by
  rw [frameToNode_eq]
  simp [parseFrameFromNode, fieldInt, fieldStr, fieldBool, nodeGet,
    lookupEntry, asInt, asStr, asBool, parseDxlSeq_map, ok_bind]

theorem appearsFrame_frameToNode (f : Frame) :
    appearsFrame (frameToNode f) = true := by
  rw [frameToNode_eq]
  simp [appearsFrame, hasKey, nodeGet, lookupEntry, YNode.isMap]

end MotionEditorModel

namespace MotionEditorModel

/-! ## Load loop lemmas -/

theorem loadLoop_ok (items : List YNode) :
    ∀ blobs frames, (loadLoop items blobs frames).2 = none →
      (loadLoop items blobs frames).1.1 =
        blobs ++ items.filter (fun i => !appearsFrame i) ∧
      (loadLoop items blobs frames).1.2.map Except.ok =
        frames.map Except.ok ++
          (items.filter (fun i => appearsFrame i)).map parseFrameFromNode := by
  induction items with
  | nil => intro blobs frames _; simp [loadLoop]
  | cons item rest ih =>
    intro blobs frames h
    by_cases hc : appearsFrame item = true
    · cases hp : parseFrameFromNode item with
      | ok fr =>
        have h2 : (loadLoop rest blobs (frames ++ [fr])).2 = none := by
          simpa [loadLoop, hc, hp] using h
        have h3 := ih blobs (frames ++ [fr]) h2
        simp only [loadLoop, hc, hp, if_true, List.filter_cons, hc,
          Bool.not_true, Bool.false_eq_true, if_false] at h3 ⊢
        refine ⟨h3.1, ?_⟩
        rw [h3.2]
        simp [hp]
      | error e => simp [loadLoop, hc, hp] at h
    · have hc2 : appearsFrame item = false := by simpa using hc
      have h2 : (loadLoop rest (blobs ++ [item]) frames).2 = none := by
        simpa [loadLoop, hc2] using h
      have h3 := ih (blobs ++ [item]) frames h2
      simp only [loadLoop, hc2, Bool.false_eq_true, if_false, List.filter_cons,
        Bool.not_false, if_true] at h3 ⊢
      refine ⟨?_, h3.2⟩
      rw [h3.1]
      simp

theorem loadLoop_blobs_first (bl : List YNode) :
    ∀ (rest : List YNode) (blobs : List YNode) (frames : List Frame),
      (∀ b ∈ bl, appearsFrame b = false) →
      loadLoop (bl ++ rest) blobs frames = loadLoop rest (blobs ++ bl) frames := by
  induction bl with
  | nil => intro rest blobs frames _; simp
  | cons b bs ih =>
    intro rest blobs frames hb
    have hb0 : appearsFrame b = false := hb b (by simp)
    have hbs : ∀ x ∈ bs, appearsFrame x = false := fun x hx => hb x (by simp [hx])
    have h2 := ih rest (blobs ++ [b]) frames hbs
    simp only [List.cons_append, loadLoop, hb0, Bool.false_eq_true, if_false,
      List.append_eq]
    rw [h2]
    simp

theorem loadLoop_frameNodes (fs : List Frame) :
    ∀ (blobs : List YNode) (frames : List Frame),
      loadLoop (fs.map frameToNode) blobs frames = ((blobs, frames ++ fs), none) := by
  induction fs with
  | nil => intro blobs frames; simp [loadLoop]
  | cons f rest ih =>
    intro blobs frames
    simp [loadLoop, appearsFrame_frameToNode, parseFrameFromNode_frameToNode, ih]

theorem appearsFrame_iff_spec (n : YNode) :
    appearsFrame n = true ↔ isFrameCandidateSpec n := by
  cases n <;>
    simp [appearsFrame, hasKey, YNode.isMap, nodeGet, isFrameCandidateSpec,
      and_assoc]

end MotionEditorModel

namespace MotionEditorModel

/-! ## Claims C1, C2, C3 -/

/-- C1: for a successfully loaded sequence document, an entry is a Frame
candidate iff it is a mapping containing all three keys `dxl` (joints),
`time` and `name` (presence check only); every other entry — scalar, sequence
or mapping lacking one of the keys — is stored unchanged as a blob, in order,
while the candidates become the parsed frames; in particular a mapping
without a `dxl` key (for instance one with only `time` and `name`) is never a
candidate. -/
theorem loadFromFile_classification (st : MotionEditorState) (items : List YNode)
    (h : (loadFromFile st (.seq items)).2 = none) :
    (∀ n : YNode, appearsFrame n = true ↔ isFrameCandidateSpec n) ∧
    (loadFromFile st (.seq items)).1.meta_blobs =
      items.filter (fun i => !appearsFrame i) ∧
    (loadFromFile st (.seq items)).1.frames.map Except.ok =
      (items.filter (fun i => appearsFrame i)).map parseFrameFromNode ∧
    (∀ es, lookupEntry es "dxl" = none → appearsFrame (YNode.map es) = false) := by
  have h0 : (loadLoop items [] []).2 = none := by
    simpa [loadFromFile] using h
  have h1 := loadLoop_ok items [] [] h0
  refine ⟨appearsFrame_iff_spec, ?_, ?_, ?_⟩
  · simpa [loadFromFile] using h1.1
  · simpa [loadFromFile] using h1.2
  · intro es hes
    simp [appearsFrame, hasKey, nodeGet, hes, YNode.isMap]

/-- Witness for C1 at a concrete three-entry document (a `time`+`name`
mapping without `dxl`, a scalar, and one real frame). -/
theorem loadFromFile_classification_witness :
    (loadFromFile wState (.seq [wBlobNode, wScalarNode, wFrameNode])).2 = none ∧
    ((∀ n : YNode, appearsFrame n = true ↔ isFrameCandidateSpec n) ∧
      (loadFromFile wState (.seq [wBlobNode, wScalarNode, wFrameNode])).1.meta_blobs =
        [wBlobNode, wScalarNode, wFrameNode].filter (fun i => !appearsFrame i) ∧
      (loadFromFile wState
          (.seq [wBlobNode, wScalarNode, wFrameNode])).1.frames.map Except.ok =
        ([wBlobNode, wScalarNode, wFrameNode].filter
          (fun i => appearsFrame i)).map parseFrameFromNode ∧
      (∀ es, lookupEntry es "dxl" = none → appearsFrame (YNode.map es) = false)) :=
  ⟨by decide,
   loadFromFile_classification wState [wBlobNode, wScalarNode, wFrameNode] (by decide)⟩

/-- C2: saving a successfully loaded document and loading the result yields
the same frames (all fields, and the joint entries in the same order) and the
same blobs. -/
theorem save_load_roundtrip (st st2 : MotionEditorState) (root : YNode)
    (h : (loadFromFile st root).2 = none) :
    (loadFromFile st2 (saveToFile (loadFromFile st root).1)).2 = none ∧
    (loadFromFile st2 (saveToFile (loadFromFile st root).1)).1.frames =
      (loadFromFile st root).1.frames ∧
    (loadFromFile st2 (saveToFile (loadFromFile st root).1)).1.meta_blobs =
      (loadFromFile st root).1.meta_blobs := by
  cases root
  case seq items =>
    have h0 : (loadLoop items [] []).2 = none := by
      simpa [loadFromFile] using h
    have h1 := loadLoop_ok items [] [] h0
    have hblob : ∀ b ∈ (loadLoop items [] []).1.1, appearsFrame b = false := by
      intro b hb
      rw [h1.1] at hb
      simp only [List.nil_append, List.mem_filter, Bool.not_eq_true'] at hb
      exact hb.2
    have hsave2 : saveToFile (loadFromFile st (.seq items)).1 =
        .seq ((loadLoop items [] []).1.1 ++
          ((loadLoop items [] []).1.2).map frameToNode) := by
      simp [saveToFile, loadFromFile, buildYamlFromAll_eq]
    have hload : loadLoop ((loadLoop items [] []).1.1 ++
        ((loadLoop items [] []).1.2).map frameToNode) [] [] =
        (((loadLoop items [] []).1.1, (loadLoop items [] []).1.2), none) := by
      rw [loadLoop_blobs_first _ _ _ _ hblob, loadLoop_frameNodes]
      simp
    refine ⟨?_, ?_, ?_⟩ <;> rw [hsave2] <;> simp [loadFromFile, hload]
  all_goals simp [loadFromFile] at h

/-- Witness for C2 at the concrete three-entry document. -/
theorem save_load_roundtrip_witness :
    (loadFromFile wState (.seq [wBlobNode, wScalarNode, wFrameNode])).2 = none ∧
    ((loadFromFile wState (saveToFile
        (loadFromFile wState (.seq [wBlobNode, wScalarNode, wFrameNode])).1)).2 = none ∧
      (loadFromFile wState (saveToFile
          (loadFromFile wState (.seq [wBlobNode, wScalarNode, wFrameNode])).1)).1.frames =
        (loadFromFile wState (.seq [wBlobNode, wScalarNode, wFrameNode])).1.frames ∧
      (loadFromFile wState (saveToFile
          (loadFromFile wState (.seq [wBlobNode, wScalarNode, wFrameNode])).1)).1.meta_blobs =
        (loadFromFile wState (.seq [wBlobNode, wScalarNode, wFrameNode])).1.meta_blobs) :=
  ⟨by decide,
   save_load_roundtrip wState wState (.seq [wBlobNode, wScalarNode, wFrameNode]) (by decide)⟩

/-- C3 is false on the code: loading `[wFrameNode, wBadFrameNode]` fails on
the second entry (its `dxl` is a scalar) but the frame parsed from the first
entry stays in the document, which is therefore not empty after the failed
load. -/
theorem loadFromFile_failed_not_empty_counterexample :
    (loadFromFile wState (.seq [wFrameNode, wBadFrameNode])).2.isSome = true ∧
    (loadFromFile wState (.seq [wFrameNode, wBadFrameNode])).1.frames ≠ [] := by
  exact ⟨by decide, by decide⟩

/-- C3 (amended): a failed load raises the error and never retains the
previous document: the members are cleared before parsing, so the result is
independent of the previous blobs and frames (loading into any editor with
the same joint mapping gives the same result, and the mapping itself is
untouched); when the failure is the top-level shape check, the document is
left empty. A fatal frame parse error partway through, however, leaves the
entries already parsed in the document rather than leaving it empty. -/
theorem loadFromFile_failure_no_previous_state (st : MotionEditorState) (root : YNode)
    (h : (loadFromFile st root).2.isSome = true) :
    (∀ st2 : MotionEditorState, st2.joint_to_id = st.joint_to_id →
      loadFromFile st2 root = loadFromFile st root) ∧
    (loadFromFile st root).1.joint_to_id = st.joint_to_id ∧
    (root.isSeq = false →
      (loadFromFile st root).1.meta_blobs = [] ∧
      (loadFromFile st root).1.frames = []) := by
  refine ⟨?_, ?_, ?_⟩
  · intro st2 hjm
    cases st; cases st2
    cases root <;> simp_all [loadFromFile]
  · cases root <;> simp [loadFromFile]
  · intro hseq
    cases root <;> simp_all [loadFromFile, YNode.isSeq]

/-- Witness for the amended C3: a failing load over an editor already holding
a loaded document. -/
theorem loadFromFile_failure_no_previous_state_witness :
    (loadFromFile wLoadedState (.seq [wFrameNode, wBadFrameNode])).2.isSome = true ∧
    ((∀ st2 : MotionEditorState, st2.joint_to_id = wLoadedState.joint_to_id →
        loadFromFile st2 (.seq [wFrameNode, wBadFrameNode]) =
          loadFromFile wLoadedState (.seq [wFrameNode, wBadFrameNode])) ∧
      (loadFromFile wLoadedState
        (.seq [wFrameNode, wBadFrameNode])).1.joint_to_id = wLoadedState.joint_to_id ∧
      ((YNode.seq [wFrameNode, wBadFrameNode]).isSeq = false →
        (loadFromFile wLoadedState (.seq [wFrameNode, wBadFrameNode])).1.meta_blobs = [] ∧
        (loadFromFile wLoadedState (.seq [wFrameNode, wBadFrameNode])).1.frames = [])) :=
  ⟨by decide,
   loadFromFile_failure_no_previous_state wLoadedState
     (.seq [wFrameNode, wBadFrameNode]) (by decide)⟩

end MotionEditorModel

namespace MotionEditorModel

/-! ## The id-to-entry index of editJoints -/

theorem id2dxlFind_buildAux (dxl : List DxlValue) (key : Int) :
    ∀ (i : Nat) (m : Id2Dxl),
      id2dxlFind (buildId2dxlAux dxl i m) key =
        match lastIdxOf dxl key with
        | some j => some (i + j)
        | none => id2dxlFind m key := by
  induction dxl with
  | nil => intro i m; simp [buildId2dxlAux, lastIdxOf]
  | cons dv rest ih =>
    intro i m
    simp only [buildId2dxlAux, lastIdxOf]
    rw [ih (i + 1) (id2dxlInsert m dv.id i)]
    cases hr : lastIdxOf rest key with
    | some j =>
      simp only
      congr 1
      omega
    | none =>
      by_cases hd : dv.id = key
      · simp [hd, id2dxlInsert, id2dxlFind]
      · simp [hd, id2dxlInsert, id2dxlFind]

theorem id2dxlFind_buildId2dxl (dxl : List DxlValue) (key : Int) :
    id2dxlFind (buildId2dxl dxl) key = lastIdxOf dxl key := by
  rw [buildId2dxl, id2dxlFind_buildAux]
  cases lastIdxOf dxl key <;> simp [id2dxlFind]

theorem lastIdxOf_none (dxl : List DxlValue) (key : Int)
    (h : lastIdxOf dxl key = none) : ∀ dv ∈ dxl, dv.id ≠ key := by
  induction dxl with
  | nil => simp
  | cons dv rest ih =>
    intro x hx
    simp only [lastIdxOf] at h
    cases hr : lastIdxOf rest key with
    | some j => rw [hr] at h; cases h
    | none =>
      rw [hr] at h
      by_cases hd : dv.id = key
      · simp [hd] at h
      · rcases List.mem_cons.mp hx with rfl | hx2
        · exact hd
        · exact ih hr x hx2

theorem lastIdxOf_eq_none_of (dxl : List DxlValue) (key : Int)
    (h : ∀ dv ∈ dxl, dv.id ≠ key) : lastIdxOf dxl key = none := by
  induction dxl with
  | nil => rfl
  | cons dv rest ih =>
    have hr : lastIdxOf rest key = none :=
      ih (fun x hx => h x (List.mem_cons_of_mem dv hx))
    simp [lastIdxOf, hr, h dv (List.mem_cons_self dv rest)]

theorem lastIdxOf_spec (dxl : List DxlValue) (key : Int) :
    ∀ j, lastIdxOf dxl key = some j →
      ∃ dv, dxl[j]? = some dv ∧ dv.id = key ∧
        ∀ k dv2, j < k → dxl[k]? = some dv2 → dv2.id ≠ key := by
  induction dxl with
  | nil => intro j h; simp [lastIdxOf] at h
  | cons dv rest ih =>
    intro j h
    simp only [lastIdxOf] at h
    cases hr : lastIdxOf rest key with
    | some j0 =>
      rw [hr] at h
      have hj : j0 + 1 = j := by simpa using h
      subst hj
      obtain ⟨dv0, hget, hid, hlast⟩ := ih j0 hr
      refine ⟨dv0, by simpa using hget, hid, ?_⟩
      intro k dv2 hk hget2
      cases k with
      | zero => omega
      | succ k0 => exact hlast k0 dv2 (by omega) (by simpa using hget2)
    | none =>
      rw [hr] at h
      by_cases hd : dv.id = key
      · rw [if_pos hd] at h
        have hj : (0 : Nat) = j := by simpa using h
        subst hj
        refine ⟨dv, by simp, hd, ?_⟩
        intro k dv2 hk hget2
        cases k with
        | zero => omega
        | succ k0 =>
          have hm : dv2 ∈ rest := by
            have h2 : rest[k0]? = some dv2 := by simpa using hget2
            exact List.getElem?_mem h2
          exact lastIdxOf_none rest key hr dv2 hm
      · rw [if_neg hd] at h
        cases h

theorem lastIdxOf_eq_of (dxl : List DxlValue) (key : Int) (j : Nat) (dv : DxlValue)
    (hj : dxl[j]? = some dv) (hid : dv.id = key)
    (hlast : ∀ k dv2, j < k → dxl[k]? = some dv2 → dv2.id ≠ key) :
    lastIdxOf dxl key = some j := by
  induction dxl generalizing j with
  | nil => simp at hj
  | cons d rest ih =>
    cases j with
    | zero =>
      have hd : d = dv := by simpa using hj
      have hnone : lastIdxOf rest key = none := by
        apply lastIdxOf_eq_none_of
        intro x hx
        obtain ⟨k0, hk0⟩ := List.getElem?_of_mem hx
        exact hlast (k0 + 1) x (by omega) (by simpa using hk0)
      simp [lastIdxOf, hnone, hd, hid]
    | succ j0 =>
      have hj2 : rest[j0]? = some dv := by simpa using hj
      have ih2 := ih j0 hj2
        (fun k dv2 hk hget => hlast (k + 1) dv2 (by omega) (by simpa using hget))
      simp [lastIdxOf, ih2]

end MotionEditorModel

namespace MotionEditorModel

/-! ## editJoints lemmas and claims C5, C6, C10 -/

theorem setPosAt_eq (dxl : List DxlValue) (i : Nat) (q : Rat) (dv : DxlValue)
    (h : dxl[i]? = some dv) :
    setPosAt dxl i q = dxl.set i { dv with position := q } := by
  simp [setPosAt, h]

theorem editJoints_eq (st : MotionEditorState) (step : String)
    (upd : List (String × Rat)) (strict : Bool) (i : Nat) (f : Frame)
    (hfind : findFrameIndexByName st.frames step = some i)
    (hf : st.frames[i]? = some f) :
    editJoints st step upd strict =
      ({ st with frames := st.frames.set i
                    ({ f with dxl :=
                      (editLoop st.joint_to_id strict upd
                        ⟨f.dxl, buildId2dxl f.dxl⟩).1.dxl }) },
       (editLoop st.joint_to_id strict upd ⟨f.dxl, buildId2dxl f.dxl⟩).2) := by
  simp [editJoints, hfind, hf]

theorem findFrameIndexByName_eq_none (frames : List Frame) (step : String)
    (h : ∀ f ∈ frames, f.name ≠ step) : findFrameIndexByName frames step = none := by
  induction frames with
  | nil => rfl
  | cons f rest ih =>
    have h0 : f.name ≠ step := h f (List.mem_cons_self f rest)
    have h1 := ih (fun x hx => h x (List.mem_cons_of_mem f hx))
    simp [findFrameIndexByName, h0, h1]

/-- C6: editing a frame name that matches no frame in the document raises the
step-not-found error, for any strict flag and any updates, and leaves the
whole editor state (blobs, frames, joint mapping) unchanged. -/
theorem editJoints_frame_not_found (st : MotionEditorState) (step : String)
    (upd : List (String × Rat)) (strict : Bool)
    (h : ∀ f ∈ st.frames, f.name ≠ step) :
    editJoints st step upd strict =
      (st, some ("MotionEditor: step not found: " ++ step)) := by
  simp [editJoints, findFrameIndexByName_eq_none st.frames step h]

/-- Witness for C6: a strict edit of a missing frame over a one-frame
document. -/
theorem editJoints_frame_not_found_witness :
    (∀ f ∈ wEditState.frames, f.name ≠ "nonexistent") ∧
    editJoints wEditState "nonexistent" [("rotate_1", (1 : Rat))] true =
      (wEditState, some ("MotionEditor: step not found: " ++ "nonexistent")) :=
  ⟨by decide,
   editJoints_frame_not_found wEditState "nonexistent"
     [("rotate_1", (1 : Rat))] true (by decide)⟩

/-- C5: for an edit of an existing frame with a single pair whose joint name
resolves to an id, the operation succeeds; if some joint entry of the frame
already holds that id, one entry holding the id has its position overwritten
in place (the length does not change), and if no entry holds it, a new
`{id, position}` entry is appended, growing the vector by exactly one. -/
theorem editJoints_resolved_pair (st : MotionEditorState) (step jname : String)
    (q : Rat) (strict : Bool) (i : Nat) (f : Frame) (id : Int)
    (hfind : findFrameIndexByName st.frames step = some i)
    (hf : st.frames[i]? = some f)
    (hres : jointLookup st.joint_to_id jname = some id) :
    (editJoints st step [(jname, q)] strict).2 = none ∧
    ∃ dxl2,
      (editJoints st step [(jname, q)] strict).1.frames =
        st.frames.set i ({ f with dxl := dxl2 }) ∧
      ((∃ dv ∈ f.dxl, dv.id = id) →
        dxl2.length = f.dxl.length ∧
        ∃ j dv, f.dxl[j]? = some dv ∧ dv.id = id ∧
          dxl2 = f.dxl.set j { dv with position := q }) ∧
      ((∀ dv ∈ f.dxl, dv.id ≠ id) →
        dxl2 = f.dxl ++ [⟨id, q⟩] ∧ dxl2.length = f.dxl.length + 1) := by
  rw [editJoints_eq st step [(jname, q)] strict i f hfind hf]
  simp only [editLoop, hres]
  rw [id2dxlFind_buildId2dxl]
  cases hlast : lastIdxOf f.dxl id with
  | none =>
    refine ⟨rfl, f.dxl ++ [⟨id, q⟩], by simp [editLoop], ?_, ?_⟩
    · intro hmem
      obtain ⟨dv, hdv, hid⟩ := hmem
      exact absurd hid (lastIdxOf_none f.dxl id hlast dv hdv)
    · intro _
      simp
  | some j =>
    obtain ⟨dv, hget, hid, _⟩ := lastIdxOf_spec f.dxl id j hlast
    refine ⟨rfl, f.dxl.set j { dv with position := q },
      by simp [editLoop, setPosAt_eq f.dxl j q dv hget], ?_, ?_⟩
    · intro _
      exact ⟨by simp, j, dv, hget, hid, rfl⟩
    · intro hall
      exact absurd hid (hall dv (List.getElem?_mem hget))

/-- Witness for C5: updating joint name rotate_1 (id 1, present twice) in the
one-frame document. -/
theorem editJoints_resolved_pair_witness :
    findFrameIndexByName wEditState.frames "f1" = some 0 ∧
    wEditState.frames[0]? = some wFrame ∧
    jointLookup wEditState.joint_to_id "rotate_1" = some 1 ∧
    ((editJoints wEditState "f1" [("rotate_1", (7 : Rat))] false).2 = none ∧
      ∃ dxl2,
        (editJoints wEditState "f1" [("rotate_1", (7 : Rat))] false).1.frames =
          wEditState.frames.set 0 ({ wFrame with dxl := dxl2 }) ∧
        ((∃ dv ∈ wFrame.dxl, dv.id = 1) →
          dxl2.length = wFrame.dxl.length ∧
          ∃ j dv, wFrame.dxl[j]? = some dv ∧ dv.id = 1 ∧
            dxl2 = wFrame.dxl.set j { dv with position := (7 : Rat) }) ∧
        ((∀ dv ∈ wFrame.dxl, dv.id ≠ 1) →
          dxl2 = wFrame.dxl ++ [⟨1, (7 : Rat)⟩] ∧
          dxl2.length = wFrame.dxl.length + 1)) :=
  ⟨by decide, by decide, by decide,
   editJoints_resolved_pair wEditState "f1" "rotate_1" (7 : Rat) false 0
     wFrame 1 (by decide) (by decide) (by decide)⟩

/-- C10: when a frame's joint vector holds the same id at several positions,
a single-pair edit resolving to that id rewrites the position of the LAST
entry holding it (the id-to-entry index is built so a later entry replaces an
earlier one), and every other entry, the earlier duplicates included, is
unchanged. -/
theorem editJoints_duplicate_id_updates_last (st : MotionEditorState)
    (step jname : String) (q : Rat) (strict : Bool) (i : Nat) (f : Frame)
    (id : Int) (j : Nat) (dv : DxlValue)
    (hfind : findFrameIndexByName st.frames step = some i)
    (hf : st.frames[i]? = some f)
    (hres : jointLookup st.joint_to_id jname = some id)
    (hdup : ∃ j0 dv0, j0 < j ∧ f.dxl[j0]? = some dv0 ∧ dv0.id = id)
    (hj : f.dxl[j]? = some dv) (hid : dv.id = id)
    (hlast : ∀ k dv2, j < k → f.dxl[k]? = some dv2 → dv2.id ≠ id) :
    (editJoints st step [(jname, q)] strict).1.frames =
      st.frames.set i ({ f with dxl := f.dxl.set j { dv with position := q } }) ∧
    (editJoints st step [(jname, q)] strict).2 = none ∧
    ∀ k, k ≠ j → (f.dxl.set j { dv with position := q })[k]? = f.dxl[k]? := by
  rw [editJoints_eq st step [(jname, q)] strict i f hfind hf]
  simp only [editLoop, hres]
  rw [id2dxlFind_buildId2dxl, lastIdxOf_eq_of f.dxl id j dv hj hid hlast]
  refine ⟨by simp [editLoop, setPosAt_eq f.dxl j q dv hj], rfl, ?_⟩
  intro k hk
  exact List.getElem?_set_ne hk.symm

/-- Witness for C10: the one-frame document has id 1 at positions 0 and 1;
the edit rewrites the entry at position 1 only. -/
theorem editJoints_duplicate_id_updates_last_witness :
    findFrameIndexByName wEditState.frames "f1" = some 0 ∧
    wEditState.frames[0]? = some wFrame ∧
    jointLookup wEditState.joint_to_id "rotate_1" = some 1 ∧
    (∃ j0 dv0, j0 < 1 ∧ wFrame.dxl[j0]? = some dv0 ∧ dv0.id = 1) ∧
    wFrame.dxl[1]? = some ⟨1, 3⟩ ∧
    (DxlValue.mk 1 3).id = 1 ∧
    ((editJoints wEditState "f1" [("rotate_1", (7 : Rat))] false).1.frames =
      wEditState.frames.set 0
        ({ wFrame with
          dxl := wFrame.dxl.set 1 { DxlValue.mk 1 3 with position := (7 : Rat) } }) ∧
      (editJoints wEditState "f1" [("rotate_1", (7 : Rat))] false).2 = none ∧
      ∀ k, k ≠ 1 →
        (wFrame.dxl.set 1 { DxlValue.mk 1 3 with position := (7 : Rat) })[k]? =
          wFrame.dxl[k]?) :=
  ⟨by decide, by decide, by decide, ⟨0, ⟨1, 5⟩, by decide, by decide, by decide⟩,
   by decide, by decide,
   editJoints_duplicate_id_updates_last wEditState "f1" "rotate_1" (7 : Rat)
     false 0 wFrame 1 1 ⟨1, 3⟩
     (by decide) (by decide) (by decide)
     ⟨0, ⟨1, 5⟩, by decide, by decide, by decide⟩ (by decide) (by decide)
     (by intro k dv2 hk hget
         rcases k with _ | _ | k0
         · omega
         · omega
         · simp [wFrame] at hget)⟩

end MotionEditorModel

namespace MotionEditorModel

/-! ## Claims C7 and C8 -/

theorem editLoop_cons_unresolved (jm : List (String × Int)) (strict : Bool)
    (jname : String) (qrad : Rat) (rest : List (String × Rat)) (s : EditSt)
    (h : jointLookup jm jname = none) :
    editLoop jm strict ((jname, qrad) :: rest) s =
      if strict then (s, some ("Unknown joint name: " ++ jname))
      else editLoop jm strict rest s := by
  simp [editLoop, h]

theorem editLoop_cons_new_id (jm : List (String × Int)) (strict : Bool)
    (jname : String) (qrad : Rat) (rest : List (String × Rat)) (s : EditSt)
    (id : Int) (h : jointLookup jm jname = some id)
    (h2 : id2dxlFind s.idx id = none) :
    editLoop jm strict ((jname, qrad) :: rest) s =
      editLoop jm strict rest
        ⟨s.dxl ++ [⟨id, qrad⟩], id2dxlInsert s.idx id s.dxl.length⟩ := by
  simp [editLoop, h, h2]

theorem editLoop_cons_overwrite (jm : List (String × Int)) (strict : Bool)
    (jname : String) (qrad : Rat) (rest : List (String × Rat)) (s : EditSt)
    (id : Int) (k : Nat) (h : jointLookup jm jname = some id)
    (h2 : id2dxlFind s.idx id = some k) :
    editLoop jm strict ((jname, qrad) :: rest) s =
      editLoop jm strict rest ⟨setPosAt s.dxl k qrad, s.idx⟩ := by
  simp [editLoop, h, h2]

theorem editLoop_false_no_error (jm : List (String × Int)) :
    ∀ (pairs : List (String × Rat)) (s : EditSt),
      (editLoop jm false pairs s).2 = none := by
  intro pairs
  induction pairs with
  | nil => intro s; rfl
  | cons p rest ih =>
    intro s
    obtain ⟨jname, qrad⟩ := p
    cases hl : jointLookup jm jname with
    | none =>
      rw [editLoop_cons_unresolved jm false jname qrad rest s hl]
      exact ih s
    | some id =>
      cases hfound : id2dxlFind s.idx id with
      | none =>
        rw [editLoop_cons_new_id jm false jname qrad rest s id hl hfound]
        exact ih _
      | some k =>
        rw [editLoop_cons_overwrite jm false jname qrad rest s id k hl hfound]
        exact ih _

theorem editLoop_false_filter (jm : List (String × Int)) :
    ∀ (pairs : List (String × Rat)) (s : EditSt),
      editLoop jm false pairs s =
        editLoop jm false
          (pairs.filter (fun p => (jointLookup jm p.1).isSome)) s := by
  intro pairs
  induction pairs with
  | nil => intro s; rfl
  | cons p rest ih =>
    intro s
    obtain ⟨jname, qrad⟩ := p
    rw [List.filter_cons]
    cases hl : jointLookup jm jname with
    | none =>
      simp only [hl, Option.isSome_none, Bool.false_eq_true, if_false]
      rw [editLoop_cons_unresolved jm false jname qrad rest s hl]
      exact ih s
    | some id =>
      simp only [hl, Option.isSome_some, if_true]
      cases hfound : id2dxlFind s.idx id with
      | none =>
        rw [editLoop_cons_new_id jm false jname qrad rest s id hl hfound,
          editLoop_cons_new_id jm false jname qrad
            (rest.filter (fun p => (jointLookup jm p.1).isSome)) s id hl hfound]
        exact ih _
      | some k =>
        rw [editLoop_cons_overwrite jm false jname qrad rest s id k hl hfound,
          editLoop_cons_overwrite jm false jname qrad
            (rest.filter (fun p => (jointLookup jm p.1).isSome)) s id k hl hfound]
        exact ih _

theorem editLoop_append (jm : List (String × Int)) (strict : Bool) :
    ∀ (p1 p2 : List (String × Rat)) (s : EditSt),
      editLoop jm strict (p1 ++ p2) s =
        match editLoop jm strict p1 s with
        | (s1, none) => editLoop jm strict p2 s1
        | (s1, some e) => (s1, some e) := by
  intro p1
  induction p1 with
  | nil =>
    intro p2 s
    cases h : editLoop jm strict [] s with
    | mk s1 err =>
      have hs : s1 = s := congrArg Prod.fst h |>.symm
      have he : err = none := congrArg Prod.snd h |>.symm
      subst hs; subst he
      rfl
  | cons p rest ih =>
    intro p2 s
    obtain ⟨jname, qrad⟩ := p
    rw [List.cons_append]
    cases hl : jointLookup jm jname with
    | none =>
      cases strict with
      | false =>
        rw [editLoop_cons_unresolved jm false jname qrad (rest ++ p2) s hl,
          editLoop_cons_unresolved jm false jname qrad rest s hl]
        exact ih p2 s
      | true =>
        rw [editLoop_cons_unresolved jm true jname qrad (rest ++ p2) s hl,
          editLoop_cons_unresolved jm true jname qrad rest s hl]
        rfl
    | some id =>
      cases hfound : id2dxlFind s.idx id with
      | none =>
        rw [editLoop_cons_new_id jm strict jname qrad (rest ++ p2) s id hl hfound,
          editLoop_cons_new_id jm strict jname qrad rest s id hl hfound]
        exact ih p2 _
      | some k =>
        rw [editLoop_cons_overwrite jm strict jname qrad (rest ++ p2) s id k hl hfound,
          editLoop_cons_overwrite jm strict jname qrad rest s id k hl hfound]
        exact ih p2 _

theorem editLoop_true_of_resolvable (jm : List (String × Int)) :
    ∀ (pairs : List (String × Rat)) (s : EditSt),
      (∀ p ∈ pairs, (jointLookup jm p.1).isSome = true) →
      editLoop jm true pairs s = editLoop jm false pairs s := by
  intro pairs
  induction pairs with
  | nil => intro s _; rfl
  | cons p rest ih =>
    intro s hall
    obtain ⟨jname, qrad⟩ := p
    have h0 : (jointLookup jm jname).isSome = true :=
      hall (jname, qrad) (List.mem_cons_self _ _)
    have hrest : ∀ p ∈ rest, (jointLookup jm p.1).isSome = true :=
      fun p hp => hall p (List.mem_cons_of_mem _ hp)
    cases hl : jointLookup jm jname with
    | none => rw [hl] at h0; cases h0
    | some id =>
      cases hfound : id2dxlFind s.idx id with
      | none =>
        rw [editLoop_cons_new_id jm true jname qrad rest s id hl hfound,
          editLoop_cons_new_id jm false jname qrad rest s id hl hfound]
        exact ih _ hrest
      | some k =>
        rw [editLoop_cons_overwrite jm true jname qrad rest s id k hl hfound,
          editLoop_cons_overwrite jm false jname qrad rest s id k hl hfound]
        exact ih _ hrest

/-- C7: editing an existing frame with a pair list holding an unresolvable
joint name: with strict = false the unresolved pairs are skipped (the call
equals the call on the resolvable sublist) and no error is raised; with
strict = true the operation fails with the unknown-joint error at the first
unresolved pair, the pairs before it being already applied. -/
theorem editJoints_unknown_joint_name (st : MotionEditorState) (step : String)
    (upd : List (String × Rat)) (i : Nat) (f : Frame)
    (hfind : findFrameIndexByName st.frames step = some i)
    (hf : st.frames[i]? = some f) :
    ((editJoints st step upd false).2 = none ∧
      editJoints st step upd false =
        editJoints st step
          (upd.filter (fun p => (jointLookup st.joint_to_id p.1).isSome)) false) ∧
    (∀ (pre post : List (String × Rat)) (jname : String) (q : Rat),
      upd = pre ++ (jname, q) :: post →
      (∀ p ∈ pre, (jointLookup st.joint_to_id p.1).isSome = true) →
      jointLookup st.joint_to_id jname = none →
      (editJoints st step upd true).2 =
        some ("Unknown joint name: " ++ jname) ∧
      (editJoints st step upd true).1 = (editJoints st step pre false).1) := by
  constructor
  · constructor
    · rw [editJoints_eq st step upd false i f hfind hf]
      exact editLoop_false_no_error st.joint_to_id upd _
    · rw [editJoints_eq st step upd false i f hfind hf,
        editJoints_eq st step _ false i f hfind hf,
        editLoop_false_filter st.joint_to_id upd]
  · intro pre post jname q hupd hpre hbad
    subst hupd
    rw [editJoints_eq st step _ true i f hfind hf,
      editJoints_eq st step pre false i f hfind hf]
    rw [editLoop_append st.joint_to_id true pre ((jname, q) :: post) _]
    rw [editLoop_true_of_resolvable st.joint_to_id pre _ hpre]
    have hnoerr := editLoop_false_no_error st.joint_to_id pre
      ⟨f.dxl, buildId2dxl f.dxl⟩
    cases hrun : editLoop st.joint_to_id false pre ⟨f.dxl, buildId2dxl f.dxl⟩ with
    | mk s1 err =>
      rw [hrun] at hnoerr
      simp only at hnoerr
      subst hnoerr
      simp [editLoop, hbad]

/-- Witness for C7: updating rotate_1 together with an unknown joint name on
the one-frame document. -/
theorem editJoints_unknown_joint_name_witness :
    findFrameIndexByName wEditState.frames "f1" = some 0 ∧
    wEditState.frames[0]? = some wFrame ∧
    (((editJoints wEditState "f1"
        [("rotate_1", (33 : Rat)), ("totally_unknown_joint", (-11 : Rat))]
        false).2 = none ∧
      editJoints wEditState "f1"
          [("rotate_1", (33 : Rat)), ("totally_unknown_joint", (-11 : Rat))]
          false =
        editJoints wEditState "f1"
          ([("rotate_1", (33 : Rat)), ("totally_unknown_joint", (-11 : Rat))].filter
            (fun p => (jointLookup wEditState.joint_to_id p.1).isSome)) false) ∧
    (∀ (pre post : List (String × Rat)) (jname : String) (q : Rat),
      [("rotate_1", (33 : Rat)), ("totally_unknown_joint", (-11 : Rat))] =
        pre ++ (jname, q) :: post →
      (∀ p ∈ pre, (jointLookup wEditState.joint_to_id p.1).isSome = true) →
      jointLookup wEditState.joint_to_id jname = none →
      (editJoints wEditState "f1"
        [("rotate_1", (33 : Rat)), ("totally_unknown_joint", (-11 : Rat))]
        true).2 = some ("Unknown joint name: " ++ jname) ∧
      (editJoints wEditState "f1"
        [("rotate_1", (33 : Rat)), ("totally_unknown_joint", (-11 : Rat))]
        true).1 = (editJoints wEditState "f1" pre false).1)) :=
  ⟨by decide, by decide,
   editJoints_unknown_joint_name wEditState "f1"
     [("rotate_1", (33 : Rat)), ("totally_unknown_joint", (-11 : Rat))] 0 wFrame
     (by decide) (by decide)⟩

/-- C8: editFourArmJoints keeps exactly the updates whose joint name is on
the fixed six-name whitelist and hands them to editJoints with
strict = false; when nothing survives the filter it returns with no error
and no state change, before any frame lookup, so even an absent frame name
raises no error; when something survives it delegates. -/
theorem editFourArmJoints_spec (st : MotionEditorState) (step : String)
    (upd : List (String × Rat)) :
    armWhitelist.length = 6 ∧
    (∀ p ∈ buildSub upd, p.1 ∈ armWhitelist ∧ updatesLookup upd p.1 = some p.2) ∧
    (buildSub upd = [] → editFourArmJoints st step upd = (st, none)) ∧
    ((∀ j ∈ armWhitelist, updatesLookup upd j = none) →
      editFourArmJoints st step upd = (st, none)) ∧
    (buildSub upd ≠ [] →
      editFourArmJoints st step upd = editJoints st step (buildSub upd) false) := by
  refine ⟨rfl, ?_, ?_, ?_, ?_⟩
  · intro p hp
    obtain ⟨j, hj, hlook⟩ := List.mem_filterMap.mp hp
    cases hq : updatesLookup upd j with
    | none => rw [hq] at hlook; cases hlook
    | some q =>
      rw [hq] at hlook
      have hpq : (j, q) = p := by simpa using hlook
      subst hpq
      exact ⟨hj, hq⟩
  · intro hempty
    simp [editFourArmJoints, hempty]
  · intro hnone
    have hempty : buildSub upd = [] := by
      apply List.filterMap_eq_nil_iff.mpr
      intro j hj
      simp [hnone j hj]
    simp [editFourArmJoints, hempty]
  · intro hne
    have : ¬ (buildSub upd).isEmpty = true := by
      simpa [List.isEmpty_iff] using hne
    simp [editFourArmJoints, this]

end MotionEditorModel

namespace MotionEditorModel

/-! ## Claims C4 and C9 -/

theorem error_bind {α β : Type} (e : String) (g : α → Except String β) :
    ((Except.error e : Except String α) >>= g) = Except.error e := rfl

theorem parseFrameFromNode_ok_fields (n : YNode) (f : Frame)
    (h : parseFrameFromNode n = .ok f) :
    fieldInt n "time" 0 = .ok f.time ∧ fieldInt n "delay" 0 = .ok f.delay ∧
    fieldInt n "repeat" 0 = .ok f.rept ∧ fieldStr n "name" "" = .ok f.name ∧
    fieldBool n "selected" false = .ok f.selected := by
  simp only [parseFrameFromNode] at h
  cases h1 : fieldInt n "time" 0 with
  | error e => simp only [h1, error_bind] at h; exact Except.noConfusion h
  | ok t =>
  simp only [h1, ok_bind] at h
  cases h2 : fieldInt n "delay" 0 with
  | error e => simp only [h2, error_bind] at h; exact Except.noConfusion h
  | ok d =>
  simp only [h2, ok_bind] at h
  cases h3 : fieldInt n "repeat" 0 with
  | error e => simp only [h3, error_bind] at h; exact Except.noConfusion h
  | ok r =>
  simp only [h3, ok_bind] at h
  cases h4 : fieldStr n "name" "" with
  | error e => simp only [h4, error_bind] at h; exact Except.noConfusion h
  | ok nm =>
  simp only [h4, ok_bind] at h
  cases h5 : fieldBool n "selected" false with
  | error e => simp only [h5, error_bind] at h; exact Except.noConfusion h
  | ok sel =>
  simp only [h5, ok_bind] at h
  cases hg : nodeGet n "dxl" with
  | none => simp only [hg] at h; exact Except.noConfusion h
  | some v =>
  cases v with
  | seq items =>
    simp only [hg] at h
    cases hp : parseDxlSeq items with
    | error e => simp only [hp, error_bind] at h; exact Except.noConfusion h
    | ok dxl =>
      simp only [hp, ok_bind] at h
      have hf := Except.ok.inj h
      subst hf
      exact ⟨rfl, rfl, rfl, rfl, rfl⟩
  | null => simp only [hg] at h; exact Except.noConfusion h
  | scalarInt i => simp only [hg] at h; exact Except.noConfusion h
  | scalarStr s => simp only [hg] at h; exact Except.noConfusion h
  | scalarBool b => simp only [hg] at h; exact Except.noConfusion h
  | scalarFloat q => simp only [hg] at h; exact Except.noConfusion h
  | map es => simp only [hg] at h; exact Except.noConfusion h

theorem fieldInt_ok_cases (n : YNode) (key : String) (dflt v : Int)
    (h : fieldInt n key dflt = .ok v) :
    (nodeGet n key = none → v = dflt) ∧
    (∀ w, nodeGet n key = some w → asInt w = some v) := by
  constructor
  · intro h2
    simp only [fieldInt, h2] at h
    exact (Except.ok.inj h).symm
  · intro w h2
    simp only [fieldInt, h2] at h
    cases ha : asInt w with
    | none => simp only [ha] at h; exact Except.noConfusion h
    | some i =>
      simp only [ha] at h
      rw [Except.ok.inj h]

theorem fieldStr_ok_cases (n : YNode) (key : String) (dflt v : String)
    (h : fieldStr n key dflt = .ok v) :
    (nodeGet n key = none → v = dflt) ∧
    (∀ w, nodeGet n key = some w → asStr w = some v) := by
  constructor
  · intro h2
    simp only [fieldStr, h2] at h
    exact (Except.ok.inj h).symm
  · intro w h2
    simp only [fieldStr, h2] at h
    cases ha : asStr w with
    | none => simp only [ha] at h; exact Except.noConfusion h
    | some s =>
      simp only [ha] at h
      rw [Except.ok.inj h]

theorem fieldBool_ok_cases (n : YNode) (key : String) (dflt v : Bool)
    (h : fieldBool n key dflt = .ok v) :
    (nodeGet n key = none → v = dflt) ∧
    (∀ w, nodeGet n key = some w → asBool w = some v) := by
  constructor
  · intro h2
    simp only [fieldBool, h2] at h
    exact (Except.ok.inj h).symm
  · intro w h2
    simp only [fieldBool, h2] at h
    cases ha : asBool w with
    | none => simp only [ha] at h; exact Except.noConfusion h
    | some b =>
      simp only [ha] at h
      rw [Except.ok.inj h]

theorem parseDxlSeq_cons_map_ok (entries : List (String × YNode))
    (rest : List YNode) (i : Int) (p : Rat)
    (h1 : (lookupEntry entries "id").bind asInt = some i)
    (h2 : (lookupEntry entries "position").bind asFloat = some p) :
    parseDxlSeq (YNode.map entries :: rest) =
      (parseDxlSeq rest).map (fun l => ⟨i, p⟩ :: l) := by
  simp [parseDxlSeq, h1, h2]

theorem parseDxlSeq_cons_map_err (entries : List (String × YNode))
    (rest : List YNode)
    (h : (lookupEntry entries "id").bind asInt = none ∨
         (lookupEntry entries "position").bind asFloat = none) :
    parseDxlSeq (YNode.map entries :: rest) =
      .error "yaml-cpp: bad conversion" := by
  rcases h with h | h
  · simp [parseDxlSeq, h]
  · cases h1 : (lookupEntry entries "id").bind asInt <;>
      simp [parseDxlSeq, h1, h]

theorem parseDxlSeq_skip (xs ys : List YNode) (e : YNode)
    (he : e.isMap = false) :
    parseDxlSeq (xs ++ e :: ys) = parseDxlSeq (xs ++ ys) := by
  induction xs with
  | nil =>
    cases e <;> first | rfl | simp [YNode.isMap] at he
  | cons x xs ih =>
    cases x with
    | map entries =>
      cases h1 : (lookupEntry entries "id").bind asInt with
      | none =>
        rw [List.cons_append, List.cons_append,
          parseDxlSeq_cons_map_err entries _ (Or.inl h1),
          parseDxlSeq_cons_map_err entries _ (Or.inl h1)]
      | some i =>
        cases h2 : (lookupEntry entries "position").bind asFloat with
        | none =>
          rw [List.cons_append, List.cons_append,
            parseDxlSeq_cons_map_err entries _ (Or.inr h2),
            parseDxlSeq_cons_map_err entries _ (Or.inr h2)]
        | some p =>
          rw [List.cons_append, List.cons_append,
            parseDxlSeq_cons_map_ok entries _ i p h1 h2,
            parseDxlSeq_cons_map_ok entries _ i p h1 h2, ih]
    | null => exact ih
    | scalarInt i => exact ih
    | scalarStr s => exact ih
    | scalarBool b => exact ih
    | scalarFloat q => exact ih
    | seq items => exact ih

theorem parseDxlSeq_error_append (xs ys : List YNode)
    (h : ∃ m, parseDxlSeq ys = Except.error m) :
    ∃ m, parseDxlSeq (xs ++ ys) = Except.error m := by
  induction xs with
  | nil => simpa using h
  | cons x xs ih =>
    obtain ⟨m, hm⟩ := ih
    cases x with
    | map entries =>
      cases h1 : (lookupEntry entries "id").bind asInt with
      | none =>
        exact ⟨_, by rw [List.cons_append,
          parseDxlSeq_cons_map_err entries _ (Or.inl h1)]⟩
      | some i =>
        cases h2 : (lookupEntry entries "position").bind asFloat with
        | none =>
          exact ⟨_, by rw [List.cons_append,
            parseDxlSeq_cons_map_err entries _ (Or.inr h2)]⟩
        | some p =>
          refine ⟨m, ?_⟩
          rw [List.cons_append, parseDxlSeq_cons_map_ok entries _ i p h1 h2, hm]
          rfl
    | null => exact ⟨m, hm⟩
    | scalarInt i => exact ⟨m, hm⟩
    | scalarStr s => exact ⟨m, hm⟩
    | scalarBool b => exact ⟨m, hm⟩
    | scalarFloat q => exact ⟨m, hm⟩
    | seq items => exact ⟨m, hm⟩

end MotionEditorModel

namespace MotionEditorModel

theorem loadLoop_err_of_bad_candidate :
    ∀ (items : List YNode) (blobs : List YNode) (frames : List Frame)
      (item : YNode) (e : String), item ∈ items → appearsFrame item = true →
      parseFrameFromNode item = .error e →
      (loadLoop items blobs frames).2.isSome = true := by
  intro items
  induction items with
  | nil => intro blobs frames item e hmem _ _; simp at hmem
  | cons x rest ih =>
    intro blobs frames item e hmem happ hperr
    by_cases hc : appearsFrame x = true
    · cases hp : parseFrameFromNode x with
      | ok fr =>
        rcases List.mem_cons.mp hmem with rfl | hmem2
        · rw [hp] at hperr; exact Except.noConfusion hperr
        · have h2 := ih blobs (frames ++ [fr]) item e hmem2 happ hperr
          simpa [loadLoop, hc, hp] using h2
      | error e2 => simp [loadLoop, hc, hp]
    · have hc2 : appearsFrame x = false := by simpa using hc
      rcases List.mem_cons.mp hmem with rfl | hmem2
      · rw [happ] at hc2; cases hc2
      · have h2 := ih (blobs ++ [x]) frames item e hmem2 happ hperr
        simpa [loadLoop, hc2] using h2

/-- C4: frame-candidate parsing extracts time, delay, repeat as integers and
name and selected as string and boolean, using the defaults 0, empty string
and false when the key is absent; a missing or non-sequence `dxl` is a fatal
error naming the partially-parsed frame; a non-mapping `dxl` element is
silently skipped, while a mapping element whose `id` or `position` key is
missing makes the parse fail, and any failing candidate makes the whole
document load fail. -/
theorem parseFrame_fields_spec :
    (∀ (n : YNode) (f : Frame), parseFrameFromNode n = .ok f →
      ((nodeGet n "time" = none → f.time = 0) ∧
        (∀ v, nodeGet n "time" = some v → asInt v = some f.time)) ∧
      ((nodeGet n "delay" = none → f.delay = 0) ∧
        (∀ v, nodeGet n "delay" = some v → asInt v = some f.delay)) ∧
      ((nodeGet n "repeat" = none → f.rept = 0) ∧
        (∀ v, nodeGet n "repeat" = some v → asInt v = some f.rept)) ∧
      ((nodeGet n "name" = none → f.name = "") ∧
        (∀ v, nodeGet n "name" = some v → asStr v = some f.name)) ∧
      ((nodeGet n "selected" = none → f.selected = false) ∧
        (∀ v, nodeGet n "selected" = some v → asBool v = some f.selected))) ∧
    (∀ (n : YNode) (nm : String),
      (∃ t, fieldInt n "time" 0 = .ok t) →
      (∃ d, fieldInt n "delay" 0 = .ok d) →
      (∃ r, fieldInt n "repeat" 0 = .ok r) →
      fieldStr n "name" "" = .ok nm →
      (∃ s, fieldBool n "selected" false = .ok s) →
      (∀ items, nodeGet n "dxl" ≠ some (.seq items)) →
      parseFrameFromNode n =
        .error ("MotionEditor: frame missing 'dxl' sequence: " ++ nm)) ∧
    (∀ (xs ys : List YNode) (e : YNode), e.isMap = false →
      parseDxlSeq (xs ++ e :: ys) = parseDxlSeq (xs ++ ys)) ∧
    (∀ (xs ys : List YNode) (es : List (String × YNode)),
      (lookupEntry es "id" = none ∨ lookupEntry es "position" = none) →
      ∃ msg, parseDxlSeq (xs ++ YNode.map es :: ys) = .error msg) ∧
    (∀ (st : MotionEditorState) (items : List YNode) (item : YNode) (e : String),
      item ∈ items → appearsFrame item = true →
      parseFrameFromNode item = .error e →
      (loadFromFile st (.seq items)).2.isSome = true) := by
  refine ⟨?_, ?_, parseDxlSeq_skip, ?_, ?_⟩
  · intro n f h
    obtain ⟨h1, h2, h3, h4, h5⟩ := parseFrameFromNode_ok_fields n f h
    exact ⟨fieldInt_ok_cases n "time" 0 f.time h1,
      fieldInt_ok_cases n "delay" 0 f.delay h2,
      fieldInt_ok_cases n "repeat" 0 f.rept h3,
      fieldStr_ok_cases n "name" "" f.name h4,
      fieldBool_ok_cases n "selected" false f.selected h5⟩
  · intro n nm ht hd hr hnm hs hdxl
    obtain ⟨t, ht⟩ := ht
    obtain ⟨d, hd⟩ := hd
    obtain ⟨r, hr⟩ := hr
    obtain ⟨s, hs⟩ := hs
    simp only [parseFrameFromNode, ht, hd, hr, hnm, hs, ok_bind]
  · intro xs ys es h
    apply parseDxlSeq_error_append
    refine ⟨"yaml-cpp: bad conversion", parseDxlSeq_cons_map_err es ys ?_⟩
    rcases h with h | h
    · exact Or.inl (by rw [h]; rfl)
    · exact Or.inr (by rw [h]; rfl)
  · intro st items item e hmem happ hperr
    have hl := loadLoop_err_of_bad_candidate items [] [] item e hmem happ hperr
    simpa [loadFromFile] using hl

/-- C9: saving emits a top-level sequence of all blobs, re-expanded from
their stored representation and in their original relative order, followed by
all frames in their original relative order, each frame a mapping with
exactly the six fields time, delay, repeat, name, selected, dxl in that
order, dxl being the sequence of its `{id, position}` mappings in the
frame's current joint order. -/
theorem saveToFile_structure (st : MotionEditorState) :
    saveToFile st = .seq (st.meta_blobs ++ st.frames.map frameToNode) ∧
    (∀ (metas : List YNode) (frames : List Frame),
      buildYamlFromAll metas frames = .seq (metas ++ frames.map frameToNode)) ∧
    (∀ f : Frame, frameToNode f = .map
      [("time", .scalarInt f.time), ("delay", .scalarInt f.delay),
       ("repeat", .scalarInt f.rept), ("name", .scalarStr f.name),
       ("selected", .scalarBool f.selected),
       ("dxl", .seq (f.dxl.map dxlToNode))]) ∧
    (∀ dv : DxlValue, dxlToNode dv =
      .map [("id", .scalarInt dv.id), ("position", .scalarFloat dv.position)]) :=
  ⟨buildYamlFromAll_eq st.meta_blobs st.frames, buildYamlFromAll_eq,
   frameToNode_eq, dxlToNode_eq⟩

end MotionEditorModel
